import Mathlib

/-!
Verification development for the KB-Embedding repository.

The core under study is the streaming batch-embedding pipeline implemented in
`src/app/src/App.jsx` (`processFile`, `processBatch`, `fetchBatchEmbeddings`,
`getEmbeddingText`), together with the CLI variants in `src/unnamed/part_000`
and `src/unnamed/part_001` (`fetchEmbedding`, `getEmbeddingText`) and the local
embedder `src/app/src/lib/localEmbedder.js` (`embedTextsLocally`).

Modelling conventions:
* A JSONL input line is either a line that `JSON.parse` turns into an object
  (constructor `Line.json r raw`, where `raw` is the original text of the line,
  used both for byte accounting and for the code paths that push the raw line
  verbatim) or a line that is not valid JSON (`Line.notJson raw`).
* A record is modelled by the fields the pipeline consults (`dense_context`,
  `question`, `answer`, `text`, `embedding`) plus an opaque bag `rest` of
  unknown fields.  Embedding vectors are opaque to the pipeline, so their
  numbers are modelled as `Int`.
* An output line is either a re-serialized record (`OutLine.record r`, the
  model of `JSON.stringify(record)`) or a raw input line pushed verbatim
  (`OutLine.raw s`).
* The embedding provider is a function from the batch of texts to either a
  list of vectors or an error message, matching the contract of
  `fetchBatchEmbeddings` (`processBatch` additionally checks the count).
* `updateFileStatus` calls are modelled by accumulating the successive UI
  states in a `trace`; the JS mutation of per-file React state becomes
  explicit state passing through `LoopState`.
-/

namespace KB

/-- Status strings of one file in App.jsx (`pending`/`processing`/`done`/`error`). -/
inductive Status where
  | pending
  | processing
  | done
  | error
deriving DecidableEq

/-- An embedding vector; its numbers are opaque to the pipeline. -/
abbrev Emb := List Int

/-- A parsed JSONL record: the fields consulted by the pipeline plus an opaque
bag of remaining fields. -/
structure Record where
  dense_context : Option String := none
  question : Option String := none
  answer : Option String := none
  text : Option String := none
  embedding : Option Emb := none
  rest : List (String × String) := []
deriving DecidableEq

/-- One non-blank input line, as seen after `JSON.parse`: either it parses to an
object (with its original raw text kept) or it is not valid JSON. -/
inductive Line where
  | json (r : Record) (raw : String)
  | notJson (raw : String)
deriving DecidableEq

/-- One output line pushed into `processedLines`: either `JSON.stringify` of a
record, or a raw input line pushed verbatim. -/
inductive OutLine where
  | record (r : Record)
  | raw (s : String)
deriving DecidableEq

/-- JS truthiness of an optional string field: `undefined` and `""` are falsy. -/
def truthy (o : Option String) : Bool :=
  match o with
  | none => false
  | some s => s != ""

/-- Model of `getEmbeddingText` (App.jsx lines 72–76, identical priority logic in
part_000 lines 15–22): `dense_context` verbatim when truthy, else
`"Q: {question}\nA: {answer}"` when both `question` and `answer` are truthy,
else `record.text || ""`. -/
def getEmbeddingText (r : Record) : String :=
  if truthy r.dense_context then r.dense_context.getD ""
  else if truthy r.question && truthy r.answer then
    "Q: " ++ r.question.getD "" ++ "\nA: " ++ r.answer.getD ""
  else r.text.getD ""

/-- Model of `record.embedding && Array.isArray(record.embedding) && record.embedding.length > 0`. -/
def hasEmbedding (r : Record) : Bool :=
  match r.embedding with
  | some e => e != []
  | none => false

/-- `BATCH_SIZE` from App.jsx line 7. -/
def BATCH_SIZE : Nat := 8

/-- The embedding provider as seen by `processFile`: one call per batch of
texts, returning vectors or an error message. -/
abbrev Provider := List String → Except String (List Emb)

/-- The per-file UI state managed through `updateFileStatus` (App.jsx lines
27–36 set the initial values). -/
structure FileState where
  status : Status := .pending
  progress : Nat := 0
  processed : Nat := 0
  total : Nat := 0
  resultUrl : Option (List OutLine) := none
  error : Option String := none
deriving DecidableEq

/-- Bookkeeping for one successful in-loop batch dispatch: processed count
before and after, the batch size, and the bytes/progress used for the UI
update. -/
structure Evt where
  pre : Nat
  size : Nat
  post : Nat
  bytes : Nat
  progress : Nat
deriving DecidableEq

/-- The mutable state of the `processFile` loop: the output buffer, the pending
batch (`batch` texts and `batchRecords`), the counters, the provider calls made
so far, the successful-dispatch events, and the UI state with its update
trace. -/
structure LoopState where
  out : List OutLine := []
  batch : List String := []
  recs : List Record := []
  processed : Nat := 0
  bytes : Nat := 0
  calls : List (List String) := []
  events : List Evt := []
  ui : FileState := {}
  trace : List FileState := []
deriving DecidableEq

/-- `Math.round((b / T) * 100)` on naturals: `⌊(100*b/T) + 1/2⌋ = (200*b + T) / (2*T)`. -/
def jsRound100 (b T : Nat) : Nat := (200 * b + T) / (2 * T)

/-- `Math.min(99, Math.round((processedBytes / totalSize) * 100))` (App.jsx line 140). -/
def progressOf (b T : Nat) : Nat := min 99 (jsRound100 b T)

/-- Model of one `updateFileStatus` call: apply the partial update to the UI
state and append the new state to the trace. -/
def pushUpdate (st : LoopState) (f : FileState → FileState) : LoopState :=
  let ui := f st.ui
  { st with ui := ui, trace := st.trace ++ [ui] }

/-- `record.embedding = embeddings[index]` (App.jsx line 182). -/
def setEmb (r : Record) (e : Emb) : Record := { r with embedding := some e }

/-- The output lines pushed by `processBatch` on success (App.jsx lines 181–184). -/
def embedBatchOut (recs : List Record) (embs : List Emb) : List OutLine :=
  (recs.zip embs).map (fun re => OutLine.record (setEmb re.1 re.2))

/-- Model of App.jsx lines 132–144: when the pending batch has reached
`BATCH_SIZE`, dispatch it via `processBatch`.  On success the embedded records
are appended to the output, counters are updated, and `updateFileStatus` is
called.  A provider error or a count mismatch is an exception thrown by
`processBatch`, which is caught by the per-line `catch` (App.jsx lines
146–149): the raw text of the *current* line is pushed and the batch is *not*
reset. -/
def midDispatch (p : Provider) (T : Nat) (raw : String) (st : LoopState) : LoopState :=
  if BATCH_SIZE ≤ st.batch.length then
    match p st.batch with
    | .ok embs =>
      if embs.length = st.recs.length then
        let pc := st.processed + st.batch.length
        let prog := progressOf st.bytes T
        pushUpdate
          { st with
              out := st.out ++ embedBatchOut st.recs embs,
              processed := pc,
              calls := st.calls ++ [st.batch],
              events := st.events ++ [⟨st.processed, st.batch.length, pc, st.bytes, prog⟩],
              batch := [], recs := [] }
          (fun ui => { ui with processed := pc, progress := prog })
      else
        { st with out := st.out ++ [OutLine.raw raw], calls := st.calls ++ [st.batch] }
    | .error _ =>
      { st with out := st.out ++ [OutLine.raw raw], calls := st.calls ++ [st.batch] }
  else st

/-- The classification part of one loop iteration for a line that parses to
the object `r` (App.jsx lines 115–130): count the bytes, then either
re-serialize an already-embedded record, push a no-text record's raw line, or
append the record and its text to the pending batch. -/
def jsonStep (st : LoopState) (r : Record) (raw : String) : LoopState :=
  let st1 := { st with bytes := st.bytes + raw.utf8ByteSize + 1 }
  if hasEmbedding r then
    { st1 with out := st1.out ++ [OutLine.record r], processed := st1.processed + 1 }
  else if getEmbeddingText r = "" then
    { st1 with out := st1.out ++ [OutLine.raw raw], processed := st1.processed + 1 }
  else
    { st1 with batch := st1.batch ++ [getEmbeddingText r], recs := st1.recs ++ [r] }

/-- Model of one iteration of the `for await` loop of `processFile` (App.jsx
lines 114–150): count the line's bytes, classify the line (an unparseable line
jumps to the `catch` which pushes it raw and skips the batch-full check), then
run the batch-full check of line 132. -/
def stepLine (p : Provider) (T : Nat) (st : LoopState) (l : Line) : LoopState :=
  match l with
  | .notJson raw =>
    { st with bytes := st.bytes + raw.utf8ByteSize + 1, out := st.out ++ [OutLine.raw raw] }
  | .json r raw => midDispatch p T raw (jsonStep st r raw)

/-- Model of App.jsx lines 152–155: dispatch the final partial batch.  Here a
`processBatch` failure is *not* caught by a per-line handler; it propagates to
the outer `catch` of `processFile`, so this returns the error message when the
dispatch fails (count mismatch gives the `processBatch` message). -/
def finalFlush (p : Provider) (st : LoopState) : LoopState × Option String :=
  if st.batch.isEmpty then (st, none)
  else
    match p st.batch with
    | .ok embs =>
      if embs.length = st.recs.length then
        ({ st with
            out := st.out ++ embedBatchOut st.recs embs,
            processed := st.processed + st.batch.length,
            calls := st.calls ++ [st.batch],
            batch := [], recs := [] }, none)
      else
        ({ st with calls := st.calls ++ [st.batch] },
          some "Embedding service returned an unexpected payload")
    | .error m => ({ st with calls := st.calls ++ [st.batch] }, some m)

/-- Result of one `processFile` run: the final UI state, the provider calls
made, the successful in-loop dispatch events, and the full trace of
`updateFileStatus` calls. -/
structure RunResult where
  final : FileState
  calls : List (List String)
  events : List Evt
  trace : List FileState
deriving DecidableEq

/-- The loop state after the initial `updateFileStatus({status: 'processing',
progress: 0})` (App.jsx line 104). -/
def initLoop : LoopState :=
  pushUpdate {} (fun ui => { ui with status := .processing, progress := 0 })

/-- The loop state after consuming all input lines. -/
def loopOut (p : Provider) (T : Nat) (lines : List Line) : LoopState :=
  lines.foldl (stepLine p T) initLoop

/-- Model of `processFile` (App.jsx lines 102–172) for a file whose non-blank
lines are `lines` and whose total size is `T` bytes: run the loop, flush the
final partial batch, and either publish the assembled output with status
`done`/progress 100 or, if the final flush threw, set status `error` with the
captured message (the outer `catch`, lines 168–171). -/
def runFile (p : Provider) (T : Nat) (lines : List Line) : RunResult :=
  let st := loopOut p T lines
  match finalFlush p st with
  | (st', none) =>
    let st2 := pushUpdate st' (fun ui =>
      { ui with status := .done, progress := 100, processed := st'.processed,
                total := st'.processed, resultUrl := some st'.out })
    ⟨st2.ui, st2.calls, st2.events, st2.trace⟩
  | (st', some m) =>
    let st2 := pushUpdate st' (fun ui => { ui with status := .error, error := some m })
    ⟨st2.ui, st2.calls, st2.events, st2.trace⟩

/-! ### Reference functions used to state the claims -/

/-- A stub provider in the sense of the spec's testable properties: it answers
every batch successfully, with one vector per text computed by `f`. -/
def stubP (f : String → Emb) : Provider := fun ts => .ok (ts.map f)

/-- The single output line a given input line is expected to contribute, when
the provider is the stub built from `f`: parse errors and no-text records pass
through raw, already-embedded records are re-serialized unchanged, and
needs-embedding records gain `embedding = f text`. -/
def expectedOut (f : String → Emb) : Line → OutLine
  | .notJson raw => .raw raw
  | .json r raw =>
    if hasEmbedding r then .record r
    else if getEmbeddingText r = "" then .raw raw
    else .record (setEmb r (f (getEmbeddingText r)))

/-- The output line of a line that is passed through without a provider call
(used for inputs whose records are all already embedded). -/
def passOut : Line → OutLine
  | .json r _ => .record r
  | .notJson raw => .raw raw

/-- The extracted texts of the records that need embedding, in arrival order. -/
def embedTexts (lines : List Line) : List String :=
  lines.filterMap fun l =>
    match l with
    | .notJson _ => none
    | .json r _ =>
      if hasEmbedding r then none
      else if getEmbeddingText r = "" then none
      else some (getEmbeddingText r)

/-- Reference batching: consume texts one by one into a growing batch, emitting
the batch whenever it reaches `BATCH_SIZE`; returns the emitted full batches
and the final partial batch. -/
def spin (cur : List String) : List String → List (List String) × List String
  | [] => ([], cur)
  | t :: ts =>
    let cur' := cur ++ [t]
    if BATCH_SIZE ≤ cur'.length then
      let r := spin [] ts
      (cur' :: r.1, r.2)
    else spin cur' ts

/-- Sizes of the full batches emitted by `spin`, as a function of the current
batch size and the number of remaining texts. -/
def spinSizes : Nat → Nat → List Nat
  | _, 0 => []
  | c, n + 1 =>
    if BATCH_SIZE ≤ c + 1 then BATCH_SIZE :: spinSizes 0 n else spinSizes (c + 1) n

/-- Size of the final partial batch left by `spin`. -/
def spinLeft : Nat → Nat → Nat
  | c, 0 => c
  | c, n + 1 => if BATCH_SIZE ≤ c + 1 then spinLeft 0 n else spinLeft (c + 1) n

/-- Sizes of all provider calls made for `n` needs-embedding records: the full
batches plus, when non-empty, the end-of-stream partial batch. -/
def sizePattern (n : Nat) : List Nat :=
  spinSizes 0 n ++ (if spinLeft 0 n = 0 then [] else [spinLeft 0 n])

/-! ### Serialization (model of `JSON.stringify` on our record type) -/

/-- Serialization of one optional string field. -/
def serializeOptStr (k : String) (v : Option String) : List String :=
  match v with
  | some s => ["\"" ++ k ++ "\":\"" ++ s ++ "\""]
  | none => []

/-- A deterministic model of `JSON.stringify(record)`.  The exact byte shape of
field serialization is a model choice; what matters for the claims is that it
is a function of the record alone. -/
def serialize (r : Record) : String :=
  "\x7b" ++ String.intercalate ","
    (serializeOptStr "dense_context" r.dense_context ++
     serializeOptStr "question" r.question ++
     serializeOptStr "answer" r.answer ++
     serializeOptStr "text" r.text ++
     r.rest.map (fun kv => "\"" ++ kv.1 ++ "\":" ++ kv.2) ++
     (match r.embedding with
      | some e => ["\"embedding\":" ++ toString e]
      | none => [])) ++ "\x7d"

/-- The bytes of one output line. -/
def render : OutLine → String
  | .record r => serialize r
  | .raw s => s

/-- The bytes of the whole output blob (`processedLines.flatten('\n')`). -/
def renderOutput (out : List OutLine) : String :=
  String.intercalate "\n" (out.map render)

/-- Re-reading an output line as an input line for a second run.  An
`OutLine.record` line is the serialization of its record, which parses back to
that record; a raw output line is only re-read in contexts where it was not
valid JSON.  (In the idempotence claim the output consists of `record` lines
only.) -/
def outToLine : OutLine → Line
  | .record r => .json r (serialize r)
  | .raw s => .notJson s

/-- Input constructor for the idempotence claim: each element gives a record, a
head and tail for its (hence non-empty) embedding, and the raw line text. -/
def mkEmbedded (rs : List (Record × Int × Emb × String)) : List Line :=
  rs.map fun x => Line.json { x.1 with embedding := some (x.2.1 :: x.2.2.1) } x.2.2.2

/-! ### Text cleaning before submission to a provider -/

/-- The per-character substitution of `t.replace(/\n/g, ' ')`. -/
def substNl (c : Char) : Char := if c = '\n' then ' ' else c

/-- Model of `t.replace(/\n/g, ' ')` (App.jsx line 193, part_000 line 116,
part_001 line 158): every newline becomes one space, all other characters are
untouched. -/
def cleanRemote (t : String) : String := ⟨t.data.map substNl⟩

/-- Characters matched by the JS `\s` class (the ones relevant here). -/
def jsWhitespaceChar (c : Char) : Bool :=
  c == ' ' || c == '\t' || c == '\n' || c == '\r' || c == '\x0b' || c == '\x0c'

/-- Model of `replace(/\s+/g, ' ')`: every maximal run of whitespace becomes a
single space.  The flag records whether the previous character was whitespace. -/
def collapseWsAux (prevWs : Bool) : List Char → List Char
  | [] => []
  | c :: cs =>
    if jsWhitespaceChar c then
      if prevWs then collapseWsAux true cs
      else ' ' :: collapseWsAux true cs
    else c :: collapseWsAux false cs

/-- Remove trailing whitespace. -/
def dropTrailingWs (l : List Char) : List Char :=
  (l.reverse.dropWhile jsWhitespaceChar).reverse

/-- Model of `String.prototype.trim`. -/
def jsTrim (l : List Char) : List Char :=
  dropTrailingWs (l.dropWhile jsWhitespaceChar)

/-- Model of `text.replace(/\s+/g, ' ').trim()` (localEmbedder.js line 26,
part_001 line 152): the preprocessing applied to each text submitted to the
local provider. -/
def cleanLocal (t : String) : String := ⟨jsTrim (collapseWsAux false t.data)⟩

/-- The JSON body `{model, input: [text...]}` posted by `fetchBatchEmbeddings`
(App.jsx lines 198–201): the submitted `input` is the cleaned texts. -/
structure ApiRequest where
  model : String
  input : List String
deriving DecidableEq

/-- Model of the request construction in `fetchBatchEmbeddings`. -/
def buildRequest (model : String) (texts : List String) : ApiRequest :=
  ⟨model, texts.map cleanRemote⟩

/-! ### Provider HTTP responses (for the response-shape claims) -/

/-- A JSON value, for modelling parsed response bodies. -/
inductive JVal where
  | null
  | bool (b : Bool)
  | num (n : Int)
  | str (s : String)
  | arr (xs : List JVal)
  | obj (fields : List (String × JVal))

/-- JS property access `v[k]`: throws a `TypeError` on `null`, yields the field
on an object (`none` models `undefined`), and `undefined` on other values. -/
def jsGetField (v : JVal) (k : String) : Except String (Option JVal) :=
  match v with
  | .null => .error "TypeError"
  | .obj fs => .ok (fs.lookup k)
  | _ => .ok none

/-- An HTTP response as seen after `response.json()`: the `ok` flag, the status
code, and the parsed JSON body. -/
structure Resp where
  ok : Bool
  status : Nat
  body : JVal

/-- Model of `fetchBatchEmbeddings` (App.jsx lines 195–219) applied to a given
response: non-2xx throws `API Error …`; a body whose `data` field is an array
yields `data.map(item => item.embedding)` (each element `none` when the item
has no `embedding` field, an exception when an item is `null`); anything else
throws `Unexpected response format`. -/
def fetchBatchEmbeddings (resp : Resp) : Except String (List (Option JVal)) :=
  if resp.ok = false then .error ("API Error " ++ toString resp.status)
  else
    match jsGetField resp.body "data" with
    | .error e => .error e
    | .ok (some (JVal.arr items)) => items.mapM (fun it => jsGetField it "embedding")
    | .ok _ => .error "Unexpected response format"

/-- Model of the count check of `processBatch` (App.jsx lines 174–179) on top
of `fetchBatchEmbeddings`: an embedding count differing from the record count
throws `Embedding service returned an unexpected payload`. -/
def processBatchValidate (records : List Record) (resp : Resp) :
    Except String (List (Option JVal)) :=
  match fetchBatchEmbeddings resp with
  | .error e => .error e
  | .ok embs =>
    if embs.length = records.length then .ok embs
    else .error "Embedding service returned an unexpected payload"

/-- JS truthiness of a JSON value. -/
def jsTruthyV (v : JVal) : Bool :=
  match v with
  | .null => false
  | .bool b => b
  | .num n => n != 0
  | .str s => s != ""
  | .arr _ => true
  | .obj _ => true

/-- JS index access `v[0]` on a value already known to be truthy. -/
def jsIndex0 (v : JVal) : Option JVal :=
  match v with
  | .arr xs => xs.head?
  | .obj fs => fs.lookup "0"
  | .str s => s.data.head?.map (fun c => JVal.str ⟨[c]⟩)
  | _ => none

/-- JS property access on a value that is not `null` (guarded by a preceding
truthiness check). -/
def simpleGet (v : JVal) (k : String) : Option JVal :=
  match v with
  | .obj fs => fs.lookup k
  | _ => none

/-- The condition chain `data.data && data.data[0] && data.data[0].embedding`
of part_000's `fetchEmbedding` (line 137), returning the embedding value when
every link is truthy.  A `null` body makes the first access throw. -/
def dataChain (body : JVal) : Except String (Option JVal) :=
  match body with
  | .null => .error "TypeError"
  | b =>
    .ok (match simpleGet b "data" with
      | none => none
      | some d =>
        if jsTruthyV d then
          match jsIndex0 d with
          | none => none
          | some d0 =>
            if jsTruthyV d0 then
              match simpleGet d0 "embedding" with
              | none => none
              | some e => if jsTruthyV e then some e else none
            else none
        else none)

/-- Model of part_000's `fetchEmbedding` response handling (lines 129–152): any
thrown error (non-2xx, `TypeError`, `Unexpected response format`) is caught and
becomes `null` (here `none`); a body with a truthy `data[0].embedding` returns
that embedding; otherwise a body that is itself an array is returned verbatim
as the embedding. -/
def fetchEmbedding (resp : Resp) : Option JVal :=
  if resp.ok = false then none
  else
    match dataChain resp.body with
    | .error _ => none
    | .ok (some e) => some e
    | .ok none =>
      match resp.body with
      | .arr xs => some (.arr xs)
      | _ => none

/-! ### Local embedder (`embedTextsLocally`, localEmbedder.js) -/

/-- The argument of `embedTextsLocally` as a JS value: an array of strings, or
anything that is not an array. -/
inductive JsArg where
  | arr (texts : List String)
  | notArray
deriving DecidableEq

/-- Observable side effects of one `embedTextsLocally` call: how many times the
pipeline loader was consulted and how many extractor invocations were made. -/
structure LocalEffects where
  loads : Nat
  extractorCalls : Nat
deriving DecidableEq

/-- Model of `embedTextsLocally` (localEmbedder.js lines 17–32): a non-array or
empty argument returns `[]` immediately with no loader consultation and no
extractor call; otherwise the pipeline is awaited once and the extractor is
invoked once per text on the cleaned text. -/
def embedTextsLocally (extractor : String → Emb) (arg : JsArg) :
    List Emb × LocalEffects :=
  match arg with
  | .notArray => ([], ⟨0, 0⟩)
  | .arr [] => ([], ⟨0, 0⟩)
  | .arr ts => (ts.map (fun t => extractor (cleanLocal t)), ⟨1, ts.length⟩)

/-! ### Step lemmas for the `processFile` loop -/

/-- Byte accounting of one line (`new TextEncoder().encode(line + '\n').length`). -/
def lineBytes : Line → Nat
  | .json _ raw => raw.utf8ByteSize + 1
  | .notJson raw => raw.utf8ByteSize + 1

theorem midDispatch_small {p : Provider} {T : Nat} {raw : String} {st : LoopState}
    (h : st.batch.length < BATCH_SIZE) : midDispatch p T raw st = st := by
  unfold midDispatch
  rw [if_neg (by omega)]

theorem stepLine_notJson {p : Provider} {T : Nat} {st : LoopState} {raw : String} :
    stepLine p T st (.notJson raw) =
      { st with bytes := st.bytes + raw.utf8ByteSize + 1,
                out := st.out ++ [OutLine.raw raw] } := rfl

theorem jsonStep_emb {st : LoopState} {r : Record} {raw : String}
    (hr : hasEmbedding r = true) :
    jsonStep st r raw =
      { st with bytes := st.bytes + raw.utf8ByteSize + 1,
                out := st.out ++ [OutLine.record r],
                processed := st.processed + 1 } := by
  simp only [jsonStep, hr, if_true]

theorem jsonStep_notext {st : LoopState} {r : Record} {raw : String}
    (hr : hasEmbedding r = false) (ht : getEmbeddingText r = "") :
    jsonStep st r raw =
      { st with bytes := st.bytes + raw.utf8ByteSize + 1,
                out := st.out ++ [OutLine.raw raw],
                processed := st.processed + 1 } := by
  simp only [jsonStep, hr, ht, if_true, Bool.false_eq_true, if_false]

theorem jsonStep_batch {st : LoopState} {r : Record} {raw : String}
    (hr : hasEmbedding r = false) (ht : ¬ getEmbeddingText r = "") :
    jsonStep st r raw =
      { st with bytes := st.bytes + raw.utf8ByteSize + 1,
                batch := st.batch ++ [getEmbeddingText r],
                recs := st.recs ++ [r] } := by
  simp only [jsonStep, hr, ht, Bool.false_eq_true, if_false]

theorem stepLine_json {p : Provider} {T : Nat} {st : LoopState} {r : Record} {raw : String} :
    stepLine p T st (.json r raw) = midDispatch p T raw (jsonStep st r raw) := rfl

theorem stepLine_json_emb {p : Provider} {T : Nat} {st : LoopState} {r : Record} {raw : String}
    (hr : hasEmbedding r = true) (hb : st.batch.length < BATCH_SIZE) :
    stepLine p T st (.json r raw) =
      { st with bytes := st.bytes + raw.utf8ByteSize + 1,
                out := st.out ++ [OutLine.record r],
                processed := st.processed + 1 } := by
  rw [stepLine_json, jsonStep_emb hr]
  exact midDispatch_small hb

theorem stepLine_json_notext {p : Provider} {T : Nat} {st : LoopState} {r : Record} {raw : String}
    (hr : hasEmbedding r = false) (ht : getEmbeddingText r = "")
    (hb : st.batch.length < BATCH_SIZE) :
    stepLine p T st (.json r raw) =
      { st with bytes := st.bytes + raw.utf8ByteSize + 1,
                out := st.out ++ [OutLine.raw raw],
                processed := st.processed + 1 } := by
  rw [stepLine_json, jsonStep_notext hr ht]
  exact midDispatch_small hb

theorem stepLine_json_batch {p : Provider} {T : Nat} {st : LoopState} {r : Record} {raw : String}
    (hr : hasEmbedding r = false) (ht : ¬ getEmbeddingText r = "") :
    stepLine p T st (.json r raw) =
      midDispatch p T raw
        { st with bytes := st.bytes + raw.utf8ByteSize + 1,
                  batch := st.batch ++ [getEmbeddingText r],
                  recs := st.recs ++ [r] } := by
  rw [stepLine_json, jsonStep_batch hr ht]

theorem midDispatch_full_ok {p : Provider} {T : Nat} {raw : String} {st : LoopState}
    {embs : List Emb} (hb : BATCH_SIZE ≤ st.batch.length)
    (hp : p st.batch = .ok embs) (hl : embs.length = st.recs.length) :
    midDispatch p T raw st =
      pushUpdate
        { st with
            out := st.out ++ embedBatchOut st.recs embs,
            processed := st.processed + st.batch.length,
            calls := st.calls ++ [st.batch],
            events := st.events ++
              [⟨st.processed, st.batch.length, st.processed + st.batch.length,
                st.bytes, progressOf st.bytes T⟩],
            batch := [], recs := [] }
        (fun ui => { ui with processed := st.processed + st.batch.length,
                             progress := progressOf st.bytes T }) := by
  unfold midDispatch
  rw [if_pos hb, hp]
  simp only [hl, if_true]

theorem midDispatch_full_err {p : Provider} {T : Nat} {raw : String} {st : LoopState}
    {m : String} (hb : BATCH_SIZE ≤ st.batch.length) (hp : p st.batch = .error m) :
    midDispatch p T raw st =
      { st with out := st.out ++ [OutLine.raw raw], calls := st.calls ++ [st.batch] } := by
  unfold midDispatch
  rw [if_pos hb, hp]

/-! ### Runs whose records are all already embedded -/

theorem foldl_all_embedded (p : Provider) (T : Nat) :
    ∀ (lines : List Line) (st : LoopState),
    (∀ l ∈ lines, ∃ r raw, l = Line.json r raw ∧ hasEmbedding r = true) →
    st.batch.length < BATCH_SIZE →
    lines.foldl (stepLine p T) st =
      { st with out := st.out ++ lines.map passOut,
                processed := st.processed + lines.length,
                bytes := st.bytes + (lines.map lineBytes).sum } := by
  intro lines
  induction lines with
  | nil => intro st _ _; simp
  | cons l ls ih =>
    intro st h hb
    obtain ⟨r, raw, rfl, hr⟩ := h l (List.mem_cons_self l ls)
    have h' : ∀ x ∈ ls, ∃ r raw, x = Line.json r raw ∧ hasEmbedding r = true :=
      fun x hx => h x (List.mem_cons_of_mem _ hx)
    rw [List.foldl_cons, stepLine_json_emb hr hb,
      ih { st with bytes := st.bytes + raw.utf8ByteSize + 1,
                   out := st.out ++ [OutLine.record r],
                   processed := st.processed + 1 } h' hb]
    cases st
    simp [passOut, lineBytes, List.append_assoc]
    omega

theorem runFile_all_embedded (p : Provider) (T : Nat) {lines : List Line}
    (h : ∀ l ∈ lines, ∃ r raw, l = Line.json r raw ∧ hasEmbedding r = true) :
    (runFile p T lines).calls = [] ∧
    (runFile p T lines).final.status = .done ∧
    (runFile p T lines).final.resultUrl = some (lines.map passOut) := by
  have hfold := foldl_all_embedded p T lines initLoop h
    (by simp [initLoop, pushUpdate]; decide)
  unfold runFile loopOut
  rw [hfold]
  simp [finalFlush, initLoop, pushUpdate]

/-! ### Runs against an always-successful stub provider -/

/-- The output lines that the pending batch records will eventually produce
under the stub provider built from `f`. -/
def pend (f : String → Emb) (st : LoopState) : List OutLine :=
  st.recs.map (fun r => OutLine.record (setEmb r (f (getEmbeddingText r))))

/-- The output lines already emitted plus the ones owed by the pending batch. -/
def outP (f : String → Emb) (st : LoopState) : List OutLine := st.out ++ pend f st

theorem embedBatchOut_self (recs : List Record) (g : Record → Emb) :
    embedBatchOut recs (recs.map g) =
      recs.map (fun r => OutLine.record (setEmb r (g r))) := by
  induction recs with
  | nil => rfl
  | cons r rs ih => simpa [embedBatchOut] using ih

theorem embedBatchOut_pend (f : String → Emb) (st : LoopState)
    (h : st.batch = st.recs.map getEmbeddingText) :
    embedBatchOut st.recs (st.batch.map f) = pend f st := by
  rw [h, List.map_map]
  exact embedBatchOut_self st.recs (fun r => f (getEmbeddingText r))

theorem midDispatch_stub (f : String → Emb) (T : Nat) (raw : String) (st : LoopState)
    (h : st.batch = st.recs.map getEmbeddingText) :
    ((midDispatch (stubP f) T raw st).batch =
        (midDispatch (stubP f) T raw st).recs.map getEmbeddingText) ∧
    outP f (midDispatch (stubP f) T raw st) = outP f st := by
  by_cases hb : BATCH_SIZE ≤ st.batch.length
  · have hl : (st.batch.map f).length = st.recs.length := by
      rw [h]; simp
    rw [midDispatch_full_ok hb rfl hl]
    refine ⟨by simp [pushUpdate], ?_⟩
    simp only [outP, pushUpdate]
    rw [embedBatchOut_pend f st h]
    simp [pend]
  · rw [midDispatch_small (by omega)]
    exact ⟨h, rfl⟩

theorem stepLine_stub (f : String → Emb) (T : Nat) (st : LoopState) (l : Line)
    (h : st.batch = st.recs.map getEmbeddingText) :
    ((stepLine (stubP f) T st l).batch =
        (stepLine (stubP f) T st l).recs.map getEmbeddingText) ∧
    List.Perm (outP f (stepLine (stubP f) T st l)) (outP f st ++ [expectedOut f l]) := by
  cases l with
  | notJson raw =>
    rw [stepLine_notJson]
    refine ⟨h, ?_⟩
    simp only [outP, pend, expectedOut, List.append_assoc]
    exact List.Perm.append_left st.out List.perm_append_comm
  | json r raw =>
    rw [stepLine_json]
    by_cases hr : hasEmbedding r
    · rw [jsonStep_emb hr]
      obtain ⟨h1, h2⟩ := midDispatch_stub f T raw
        { st with bytes := st.bytes + raw.utf8ByteSize + 1,
                  out := st.out ++ [OutLine.record r],
                  processed := st.processed + 1 } h
      refine ⟨h1, ?_⟩
      rw [h2]
      simp only [outP, pend, expectedOut, hr, if_true, List.append_assoc]
      exact List.Perm.append_left st.out List.perm_append_comm
    · have hr' : hasEmbedding r = false := by simpa using hr
      by_cases ht : getEmbeddingText r = ""
      · rw [jsonStep_notext hr' ht]
        obtain ⟨h1, h2⟩ := midDispatch_stub f T raw
          { st with bytes := st.bytes + raw.utf8ByteSize + 1,
                    out := st.out ++ [OutLine.raw raw],
                    processed := st.processed + 1 } h
        refine ⟨h1, ?_⟩
        rw [h2]
        simp only [outP, pend, expectedOut, hr', Bool.false_eq_true, if_false, ht, if_true,
          List.append_assoc]
        exact List.Perm.append_left st.out List.perm_append_comm
      · rw [jsonStep_batch hr' ht]
        obtain ⟨h1, h2⟩ := midDispatch_stub f T raw
          { st with bytes := st.bytes + raw.utf8ByteSize + 1,
                    batch := st.batch ++ [getEmbeddingText r],
                    recs := st.recs ++ [r] }
          (by simp [h])
        refine ⟨h1, ?_⟩
        rw [h2]
        simp [outP, pend, expectedOut, hr', ht, List.append_assoc]

theorem foldl_stub (f : String → Emb) (T : Nat) :
    ∀ (lines : List Line) (st : LoopState),
    st.batch = st.recs.map getEmbeddingText →
    ((lines.foldl (stepLine (stubP f) T) st).batch =
        (lines.foldl (stepLine (stubP f) T) st).recs.map getEmbeddingText) ∧
    List.Perm (outP f (lines.foldl (stepLine (stubP f) T) st))
      (outP f st ++ lines.map (expectedOut f)) := by
  intro lines
  induction lines with
  | nil => intro st h; exact ⟨h, by simp⟩
  | cons l ls ih =>
    intro st h
    obtain ⟨h1, h2⟩ := stepLine_stub f T st l h
    obtain ⟨h3, h4⟩ := ih _ h1
    rw [List.foldl_cons]
    refine ⟨h3, ?_⟩
    have h5 := h4.trans (h2.append_right (ls.map (expectedOut f)))
    simpa [List.append_assoc] using h5

theorem finalFlush_stub (f : String → Emb) (st : LoopState)
    (h : st.batch = st.recs.map getEmbeddingText) :
    (finalFlush (stubP f) st).2 = none ∧
    (finalFlush (stubP f) st).1.out = outP f st ∧
    (finalFlush (stubP f) st).1.ui = st.ui ∧
    (finalFlush (stubP f) st).1.trace = st.trace := by
  by_cases hbe : st.batch.isEmpty
  · have hb : st.batch = [] := by simpa [List.isEmpty_iff] using hbe
    have hr : st.recs = [] := by
      rw [hb] at h
      exact (List.map_eq_nil_iff.mp h.symm)
    unfold finalFlush
    rw [if_pos hbe]
    simp [outP, pend, hr]
  · have hl : (st.batch.map f).length = st.recs.length := by rw [h]; simp
    unfold finalFlush
    rw [if_neg hbe]
    simp only [stubP, hl, if_true]
    refine ⟨trivial, ?_, trivial, trivial⟩
    rw [embedBatchOut_pend f st h]
    rfl

/-! ### Invariants of the UI state trace -/

/-- The progress invariant claimed for non-terminal states: while the status is
`processing`, progress never exceeds 99. -/
def progOK (s : FileState) : Prop := s.status = .processing → s.progress ≤ 99

/-- The batch-resolution bookkeeping invariant: a resolved batch increments the
processed count by exactly the batch size and recomputes progress as
`min(99, round(100 * consumedBytes / totalBytes))`. -/
def evtOK (T : Nat) (e : Evt) : Prop :=
  e.post = e.pre + e.size ∧ e.progress = progressOf e.bytes T

theorem jsonStep_misc (st : LoopState) (r : Record) (raw : String) :
    (jsonStep st r raw).ui = st.ui ∧ (jsonStep st r raw).trace = st.trace ∧
    (jsonStep st r raw).events = st.events := by
  unfold jsonStep
  split
  · exact ⟨rfl, rfl, rfl⟩
  split <;> exact ⟨rfl, rfl, rfl⟩

theorem midDispatch_inv (p : Provider) (T : Nat) (raw : String) (st : LoopState)
    (h1 : ∀ s ∈ st.trace, progOK s) (h2 : ∀ e ∈ st.events, evtOK T e)
    (h3 : st.ui.resultUrl = none) :
    (∀ s ∈ (midDispatch p T raw st).trace, progOK s) ∧
    (∀ e ∈ (midDispatch p T raw st).events, evtOK T e) ∧
    (midDispatch p T raw st).ui.resultUrl = none := by
  unfold midDispatch
  by_cases hb : BATCH_SIZE ≤ st.batch.length
  · rw [if_pos hb]
    cases hp : p st.batch with
    | ok embs =>
      by_cases hl : embs.length = st.recs.length
      · simp only [hl, if_true, pushUpdate]
        refine ⟨?_, ?_, h3⟩
        · intro s hs
          rcases List.mem_append.mp hs with hs | hs
          · exact h1 s hs
          · have : s = { st.ui with processed := st.processed + st.batch.length,
                                    progress := progressOf st.bytes T } := by
              simpa using hs
            subst this
            intro _
            exact Nat.min_le_left 99 _
        · intro e he
          rcases List.mem_append.mp he with he | he
          · exact h2 e he
          · have : e = ⟨st.processed, st.batch.length, st.processed + st.batch.length,
                        st.bytes, progressOf st.bytes T⟩ := by simpa using he
            subst this
            exact ⟨rfl, rfl⟩
      · simp only [hl, if_false]
        exact ⟨h1, h2, h3⟩
    | error m => exact ⟨h1, h2, h3⟩
  · rw [if_neg hb]
    exact ⟨h1, h2, h3⟩

theorem stepLine_inv (p : Provider) (T : Nat) (st : LoopState) (l : Line)
    (h1 : ∀ s ∈ st.trace, progOK s) (h2 : ∀ e ∈ st.events, evtOK T e)
    (h3 : st.ui.resultUrl = none) :
    (∀ s ∈ (stepLine p T st l).trace, progOK s) ∧
    (∀ e ∈ (stepLine p T st l).events, evtOK T e) ∧
    (stepLine p T st l).ui.resultUrl = none := by
  cases l with
  | notJson raw => exact ⟨h1, h2, h3⟩
  | json r raw =>
    rw [stepLine_json]
    obtain ⟨m1, m2, m3⟩ := jsonStep_misc st r raw
    refine midDispatch_inv p T raw (jsonStep st r raw) ?_ ?_ ?_
    · rw [m2]; exact h1
    · rw [m3]; exact h2
    · rw [m1]; exact h3

theorem foldl_inv (p : Provider) (T : Nat) :
    ∀ (lines : List Line) (st : LoopState),
    (∀ s ∈ st.trace, progOK s) → (∀ e ∈ st.events, evtOK T e) → st.ui.resultUrl = none →
    (∀ s ∈ (lines.foldl (stepLine p T) st).trace, progOK s) ∧
    (∀ e ∈ (lines.foldl (stepLine p T) st).events, evtOK T e) ∧
    (lines.foldl (stepLine p T) st).ui.resultUrl = none := by
  intro lines
  induction lines with
  | nil => intro st h1 h2 h3; exact ⟨h1, h2, h3⟩
  | cons l ls ih =>
    intro st h1 h2 h3
    obtain ⟨k1, k2, k3⟩ := stepLine_inv p T st l h1 h2 h3
    rw [List.foldl_cons]
    exact ih _ k1 k2 k3

theorem loopOut_inv (p : Provider) (T : Nat) (lines : List Line) :
    (∀ s ∈ (loopOut p T lines).trace, progOK s) ∧
    (∀ e ∈ (loopOut p T lines).events, evtOK T e) ∧
    (loopOut p T lines).ui.resultUrl = none := by
  unfold loopOut
  refine foldl_inv p T lines initLoop ?_ ?_ ?_
  · intro s hs
    have : s = { (({} : LoopState)).ui with status := .processing, progress := 0 } := by
      simpa [initLoop, pushUpdate] using hs
    subst this
    intro _
    decide
  · simp [initLoop, pushUpdate]
  · simp [initLoop, pushUpdate]

theorem finalFlush_misc (p : Provider) (st : LoopState) :
    (finalFlush p st).1.ui = st.ui ∧ (finalFlush p st).1.trace = st.trace ∧
    (finalFlush p st).1.events = st.events := by
  unfold finalFlush
  by_cases hbe : st.batch.isEmpty
  · rw [if_pos hbe]
    exact ⟨rfl, rfl, rfl⟩
  · rw [if_neg hbe]
    cases hp : p st.batch with
    | ok embs =>
      by_cases hl : embs.length = st.recs.length
      · simp [hl]
      · simp [hl]
    | error m => exact ⟨rfl, rfl, rfl⟩

theorem initLoop_batch : initLoop.batch = initLoop.recs.map getEmbeddingText := by
  simp [initLoop, pushUpdate]

theorem outP_initLoop (f : String → Emb) : outP f initLoop = [] := by
  simp [initLoop, outP, pend, pushUpdate]

/-- A run against the always-successful stub provider terminates with status
`done`, progress 100, and publishes an output that is a permutation of the
per-line expected outputs. -/
theorem runFile_stub (f : String → Emb) (T : Nat) (lines : List Line) :
    (runFile (stubP f) T lines).final.status = .done ∧
    (runFile (stubP f) T lines).final.progress = 100 ∧
    ∃ out, (runFile (stubP f) T lines).final.resultUrl = some out ∧
      List.Perm out (lines.map (expectedOut f)) := by
  obtain ⟨h1, h2⟩ := foldl_stub f T lines initLoop initLoop_batch
  obtain ⟨g1, g2, g3, g4⟩ := finalFlush_stub f (loopOut (stubP f) T lines) h1
  unfold runFile
  dsimp only
  rcases hff : finalFlush (stubP f) (loopOut (stubP f) T lines) with ⟨st2, err⟩
  rw [hff] at g1 g2 g3 g4
  simp only at g1 g2 g3 g4
  subst g1
  dsimp only [pushUpdate]
  refine ⟨rfl, rfl, st2.out, rfl, ?_⟩
  rw [g2]
  have h2' : List.Perm (outP f (loopOut (stubP f) T lines))
      (outP f initLoop ++ lines.map (expectedOut f)) := h2
  rw [outP_initLoop, List.nil_append] at h2'
  exact h2'

/-! ### Batching behaviour: which provider calls a run makes -/

theorem embedTexts_notJson (raw : String) (ls : List Line) :
    embedTexts (.notJson raw :: ls) = embedTexts ls := by
  simp [embedTexts]

theorem embedTexts_emb {r : Record} (raw : String) (ls : List Line)
    (hr : hasEmbedding r = true) :
    embedTexts (.json r raw :: ls) = embedTexts ls := by
  simp [embedTexts, hr]

theorem embedTexts_notext {r : Record} (raw : String) (ls : List Line)
    (hr : hasEmbedding r = false) (ht : getEmbeddingText r = "") :
    embedTexts (.json r raw :: ls) = embedTexts ls := by
  simp [embedTexts, hr, ht]

theorem embedTexts_needs {r : Record} (raw : String) (ls : List Line)
    (hr : hasEmbedding r = false) (ht : ¬ getEmbeddingText r = "") :
    embedTexts (.json r raw :: ls) = getEmbeddingText r :: embedTexts ls := by
  simp [embedTexts, hr, ht]

theorem spin_cons_full {cur : List String} {t : String} {ts : List String}
    (hf : BATCH_SIZE ≤ (cur ++ [t]).length) :
    spin cur (t :: ts) = ((cur ++ [t]) :: (spin [] ts).1, (spin [] ts).2) := by
  have hf' : BATCH_SIZE ≤ cur.length + 1 := by simpa using hf
  simp [spin, hf']

theorem spin_cons_small {cur : List String} {t : String} {ts : List String}
    (hf : ¬ BATCH_SIZE ≤ (cur ++ [t]).length) :
    spin cur (t :: ts) = spin (cur ++ [t]) ts := by
  have hf' : ¬ BATCH_SIZE ≤ cur.length + 1 := by simpa using hf
  simp [spin, hf']

theorem midDispatch_dispatch_proj (p : Provider) (T : Nat) (raw : String) (st : LoopState)
    {es : List Emb} (hb : BATCH_SIZE ≤ st.batch.length)
    (hp : p st.batch = .ok es) (hl : es.length = st.recs.length) :
    (midDispatch p T raw st).calls = st.calls ++ [st.batch] ∧
    (midDispatch p T raw st).batch = [] ∧
    (midDispatch p T raw st).recs = [] := by
  rw [midDispatch_full_ok hb hp hl]
  simp [pushUpdate]

theorem foldl_calls (p : Provider) (T : Nat)
    (Hp : ∀ ts, ∃ es, p ts = .ok es ∧ es.length = ts.length) :
    ∀ (lines : List Line) (st : LoopState),
    st.batch = st.recs.map getEmbeddingText → st.batch.length < BATCH_SIZE →
    ((lines.foldl (stepLine p T) st).calls
        = st.calls ++ (spin st.batch (embedTexts lines)).1) ∧
    ((lines.foldl (stepLine p T) st).batch = (spin st.batch (embedTexts lines)).2) ∧
    ((lines.foldl (stepLine p T) st).batch
        = (lines.foldl (stepLine p T) st).recs.map getEmbeddingText) ∧
    ((lines.foldl (stepLine p T) st).batch.length < BATCH_SIZE) := by
  intro lines
  induction lines with
  | nil => intro st h hb; exact ⟨by simp [spin], by simp [spin], h, hb⟩
  | cons l ls ih =>
    intro st h hb
    rw [List.foldl_cons]
    cases l with
    | notJson raw =>
      rw [stepLine_notJson, embedTexts_notJson]
      exact ih _ h hb
    | json r raw =>
      by_cases hr : hasEmbedding r
      · rw [stepLine_json_emb hr hb, embedTexts_emb raw ls hr]
        exact ih _ h hb
      · have hr' : hasEmbedding r = false := by simpa using hr
        by_cases ht : getEmbeddingText r = ""
        · rw [stepLine_json_notext hr' ht hb, embedTexts_notext raw ls hr' ht]
          exact ih _ h hb
        · rw [stepLine_json_batch hr' ht, embedTexts_needs raw ls hr' ht]
          set stE : LoopState :=
            { st with bytes := st.bytes + raw.utf8ByteSize + 1,
                      batch := st.batch ++ [getEmbeddingText r],
                      recs := st.recs ++ [r] } with hE
          have hEb : stE.batch = st.batch ++ [getEmbeddingText r] := by rw [hE]
          have hEr : stE.recs = st.recs ++ [r] := by rw [hE]
          have hEc : stE.calls = st.calls := by rw [hE]
          by_cases hfull : BATCH_SIZE ≤ (st.batch ++ [getEmbeddingText r]).length
          · have hfullE : BATCH_SIZE ≤ stE.batch.length := by rw [hEb]; exact hfull
            obtain ⟨es, hp0, hl0⟩ := Hp stE.batch
            have hl' : es.length = stE.recs.length := by
              rw [hl0, hEb, hEr, h]
              simp
            obtain ⟨d1, d2, d3⟩ := midDispatch_dispatch_proj p T raw stE hfullE hp0 hl'
            obtain ⟨c1, c2, c3, c4⟩ := ih (midDispatch p T raw stE)
              (by rw [d2, d3]; rfl) (by rw [d2]; decide)
            rw [d2] at c1 c2
            rw [d1, hEc, hEb] at c1
            refine ⟨?_, ?_, c3, c4⟩
            · rw [c1, spin_cons_full hfull]
              simp
            · rw [c2, spin_cons_full hfull]
          · have hsmallE : stE.batch.length < BATCH_SIZE := by
              rw [hEb]; omega
            rw [midDispatch_small hsmallE]
            obtain ⟨c1, c2, c3, c4⟩ := ih stE (by rw [hEb, hEr, h]; simp) hsmallE
            rw [hEb] at c1 c2
            rw [hEc] at c1
            refine ⟨?_, ?_, c3, c4⟩
            · rw [c1, spin_cons_small hfull]
            · rw [c2, spin_cons_small hfull]

/-- The final flush succeeds under an always-successful provider, and makes one
more call exactly when the pending batch is non-empty. -/
theorem finalFlush_calls (p : Provider) (st : LoopState)
    (Hp : ∀ ts, ∃ es, p ts = .ok es ∧ es.length = ts.length)
    (h : st.batch = st.recs.map getEmbeddingText) :
    (finalFlush p st).2 = none ∧
    (finalFlush p st).1.calls
      = st.calls ++ (if st.batch.isEmpty then [] else [st.batch]) := by
  by_cases hbe : st.batch.isEmpty
  · unfold finalFlush
    rw [if_pos hbe]
    simp [hbe]
  · obtain ⟨es, hp0, hl0⟩ := Hp st.batch
    have hl' : es.length = st.recs.length := by rw [hl0, h]; simp
    unfold finalFlush
    rw [if_neg hbe, hp0]
    simp [hl', hbe]

/-- A run against an always-successful provider reaches `done` with progress
100, and its provider calls are the full batches in arrival order followed by
the final partial batch when non-empty. -/
theorem runFile_ok (p : Provider) (T : Nat) (lines : List Line)
    (Hp : ∀ ts, ∃ es, p ts = .ok es ∧ es.length = ts.length) :
    (runFile p T lines).final.status = .done ∧
    (runFile p T lines).final.progress = 100 ∧
    (runFile p T lines).calls
      = (spin [] (embedTexts lines)).1 ++
        (if (spin [] (embedTexts lines)).2.isEmpty then []
         else [(spin [] (embedTexts lines)).2]) := by
  obtain ⟨c1, c2, c3, c4⟩ := foldl_calls p T Hp lines initLoop initLoop_batch (by decide)
  obtain ⟨g1, g2⟩ := finalFlush_calls p (loopOut p T lines) Hp c3
  unfold runFile
  dsimp only
  rcases hff : finalFlush p (loopOut p T lines) with ⟨st2, err⟩
  rw [hff] at g1 g2
  simp only at g1 g2
  subst g1
  dsimp only [pushUpdate]
  refine ⟨rfl, rfl, ?_⟩
  rw [g2]
  have hcalls : (loopOut p T lines).calls = (spin [] (embedTexts lines)).1 := by
    have : initLoop.calls = [] := by rfl
    rw [loopOut, c1, this, List.nil_append]
    rfl
  have hbatch : (loopOut p T lines).batch = (spin [] (embedTexts lines)).2 := c2
  rw [hcalls, hbatch]

theorem spin_sizes_spec :
    ∀ (ts cur : List String), cur.length < BATCH_SIZE →
    (spin cur ts).1.map List.length = spinSizes cur.length ts.length ∧
    (spin cur ts).2.length = spinLeft cur.length ts.length := by
  intro ts
  induction ts with
  | nil => intro cur hb; simp [spin, spinSizes, spinLeft]
  | cons t ts ih =>
    intro cur hb
    by_cases hf : BATCH_SIZE ≤ (cur ++ [t]).length
    · have hlen : cur.length + 1 = BATCH_SIZE := by
        simp only [List.length_append, List.length_singleton] at hf
        omega
      rw [spin_cons_full hf]
      obtain ⟨s1, s2⟩ := ih [] (by decide)
      constructor
      · simp only [List.map_cons, s1, List.length_append, List.length_singleton, hlen]
        simp [spinSizes, hlen]
      · rw [s2]
        simp [spinLeft, hlen]
    · have hsm : (cur ++ [t]).length < BATCH_SIZE := by omega
      rw [spin_cons_small hf]
      obtain ⟨s1, s2⟩ := ih (cur ++ [t]) hsm
      simp only [List.length_append, List.length_singleton] at s1 s2
      have hno : ¬ BATCH_SIZE ≤ cur.length + 1 := by
        simp only [List.length_append, List.length_singleton] at hf
        omega
      constructor
      · rw [s1]
        simp [spinSizes, hno]
      · rw [s2]
        simp [spinLeft, hno]

theorem spin_join :
    ∀ (ts cur : List String), (spin cur ts).1.flatten ++ (spin cur ts).2 = cur ++ ts := by
  intro ts
  induction ts with
  | nil => intro cur; simp [spin]
  | cons t ts ih =>
    intro cur
    by_cases hf : BATCH_SIZE ≤ (cur ++ [t]).length
    · rw [spin_cons_full hf]
      simp only [List.flatten_cons, List.append_assoc, ih []]
      simp
    · rw [spin_cons_small hf, ih (cur ++ [t])]
      simp

theorem spin_calls_sizes (texts : List String) :
    (((spin [] texts).1 ++
      (if (spin [] texts).2.isEmpty then [] else [(spin [] texts).2])).map List.length)
      = sizePattern texts.length := by
  obtain ⟨s1, s2⟩ := spin_sizes_spec texts [] (by decide)
  simp only [List.length_nil] at s1 s2
  rw [List.map_append, s1]
  unfold sizePattern
  congr 1
  by_cases hbe : (spin [] texts).2.isEmpty
  · have h0 : spinLeft 0 texts.length = 0 := by
      rw [← s2]
      simpa [List.isEmpty_iff] using hbe
    rw [if_pos hbe, if_pos h0]
    simp
  · have h0 : ¬ spinLeft 0 texts.length = 0 := by
      intro hcon
      exact hbe (by
        rw [List.isEmpty_iff]
        exact List.length_eq_zero.mp (by rw [s2]; exact hcon))
    rw [if_neg hbe, if_neg h0]
    simp [s2]

theorem spin_calls_join (texts : List String) :
    ((spin [] texts).1 ++
      (if (spin [] texts).2.isEmpty then [] else [(spin [] texts).2])).flatten = texts := by
  by_cases hbe : (spin [] texts).2.isEmpty
  · have h2 : (spin [] texts).2 = [] := by simpa [List.isEmpty_iff] using hbe
    rw [if_pos hbe]
    have := spin_join texts []
    rw [h2, List.append_nil, List.nil_append] at this
    simpa using this
  · rw [if_neg hbe]
    have := spin_join texts []
    rw [List.nil_append] at this
    simpa [List.flatten_append] using this

/-! ### The failure path of the final flush, and run-level invariants -/

/-- When the end-of-stream flush of the partial batch fails, the outer `catch`
fires: the run ends with status `error`, the thrown message is captured, and no
result URL is ever set. -/
theorem runFile_flush_error (p : Provider) (T : Nat) (lines : List Line) (m : String)
    (hne : ¬ (loopOut p T lines).batch.isEmpty = true)
    (hp : p (loopOut p T lines).batch = .error m) :
    (runFile p T lines).final.status = .error ∧
    (runFile p T lines).final.error = some m ∧
    (runFile p T lines).final.resultUrl = none := by
  obtain ⟨_, _, i3⟩ := loopOut_inv p T lines
  unfold runFile
  dsimp only
  have hff : finalFlush p (loopOut p T lines) =
      ({ loopOut p T lines with
          calls := (loopOut p T lines).calls ++ [(loopOut p T lines).batch] }, some m) := by
    unfold finalFlush
    rw [if_neg hne, hp]
  rw [hff]
  dsimp only [pushUpdate]
  exact ⟨rfl, rfl, i3⟩

/-- Same for a 2xx final-flush response whose embedding count does not match
the batch record count: `processBatch` throws its payload message. -/
theorem runFile_flush_mismatch (p : Provider) (T : Nat) (lines : List Line) {es : List Emb}
    (hne : ¬ (loopOut p T lines).batch.isEmpty = true)
    (hp : p (loopOut p T lines).batch = .ok es)
    (hl : ¬ es.length = (loopOut p T lines).recs.length) :
    (runFile p T lines).final.status = .error ∧
    (runFile p T lines).final.error = some "Embedding service returned an unexpected payload" ∧
    (runFile p T lines).final.resultUrl = none := by
  obtain ⟨_, _, i3⟩ := loopOut_inv p T lines
  unfold runFile
  dsimp only
  have hff : finalFlush p (loopOut p T lines) =
      ({ loopOut p T lines with
          calls := (loopOut p T lines).calls ++ [(loopOut p T lines).batch] },
        some "Embedding service returned an unexpected payload") := by
    unfold finalFlush
    rw [if_neg hne, hp]
    simp [hl]
  rw [hff]
  dsimp only [pushUpdate]
  exact ⟨rfl, rfl, i3⟩

/-- Every state pushed through `updateFileStatus` during a run satisfies the
progress invariant, every resolved in-loop batch event is properly accounted,
and a final status of `done` comes with progress exactly 100. -/
theorem runFile_inv (p : Provider) (T : Nat) (lines : List Line) :
    (∀ s ∈ (runFile p T lines).trace, progOK s) ∧
    (∀ e ∈ (runFile p T lines).events, evtOK T e) ∧
    ((runFile p T lines).final.status = .done → (runFile p T lines).final.progress = 100) := by
  obtain ⟨i1, i2, _⟩ := loopOut_inv p T lines
  obtain ⟨m1, m2, m3⟩ := finalFlush_misc p (loopOut p T lines)
  unfold runFile
  dsimp only
  rcases hff : finalFlush p (loopOut p T lines) with ⟨st2, err⟩
  rw [hff] at m1 m2 m3
  simp only at m1 m2 m3
  cases err with
  | none =>
    dsimp only [pushUpdate]
    refine ⟨?_, ?_, fun _ => rfl⟩
    · intro s hs
      rcases List.mem_append.mp hs with hs | hs
      · rw [m2] at hs
        exact i1 s hs
      · have hs' := List.mem_singleton.mp hs
        subst hs'
        intro hcon
        exact Status.noConfusion hcon
    · intro e he
      rw [m3] at he
      exact i2 e he
  | some m =>
    dsimp only [pushUpdate]
    refine ⟨?_, ?_, ?_⟩
    · intro s hs
      rcases List.mem_append.mp hs with hs | hs
      · rw [m2] at hs
        exact i1 s hs
      · have hs' := List.mem_singleton.mp hs
        subst hs'
        intro hcon
        exact Status.noConfusion hcon
    · intro e he
      rw [m3] at he
      exact i2 e he
    · intro hcon
      exact Status.noConfusion hcon

/-! ### Properties of the two text-cleaning functions -/

theorem jsWhitespaceChar_nl : jsWhitespaceChar '\n' = true := by decide

theorem collapseWsAux_no_nl :
    ∀ (l : List Char) (b : Bool), '\n' ∉ collapseWsAux b l := by
  intro l
  induction l with
  | nil => intro b; simp [collapseWsAux]
  | cons c cs ih =>
    intro b
    by_cases hw : jsWhitespaceChar c
    · cases b with
      | true => simpa [collapseWsAux, hw] using ih true
      | false =>
        simp only [collapseWsAux, hw, if_true, Bool.false_eq_true, if_false]
        intro hmem
        rcases List.mem_cons.mp hmem with h | h
        · exact absurd h (by decide)
        · exact ih true h
    · simp only [collapseWsAux, hw, Bool.false_eq_true, if_false]
      intro hmem
      rcases List.mem_cons.mp hmem with h | h
      · exact hw (by rw [← h]; decide)
      · exact ih false h

theorem collapseWsAux_filter :
    ∀ (l : List Char) (b : Bool),
    (collapseWsAux b l).filter (fun c => !jsWhitespaceChar c)
      = l.filter (fun c => !jsWhitespaceChar c) := by
  intro l
  induction l with
  | nil => intro b; rfl
  | cons c cs ih =>
    intro b
    by_cases hw : jsWhitespaceChar c
    · cases b with
      | true => simp [collapseWsAux, hw, List.filter_cons, ih true]
      | false =>
        simp [collapseWsAux, hw, List.filter_cons, ih true]
        decide
    · simp [collapseWsAux, hw, List.filter_cons, ih false]

theorem mem_dropWhile_ws {a : Char} :
    ∀ {l : List Char}, a ∈ l.dropWhile jsWhitespaceChar → a ∈ l := by
  intro l
  induction l with
  | nil => intro h; simp at h
  | cons c cs ih =>
    intro h
    by_cases hw : jsWhitespaceChar c
    · simp only [List.dropWhile_cons, hw, if_true] at h
      exact List.mem_cons_of_mem _ (ih h)
    · simpa [List.dropWhile_cons, hw] using h

theorem filter_dropWhile_ws :
    ∀ (l : List Char),
    (l.dropWhile jsWhitespaceChar).filter (fun c => !jsWhitespaceChar c)
      = l.filter (fun c => !jsWhitespaceChar c) := by
  intro l
  induction l with
  | nil => rfl
  | cons c cs ih =>
    by_cases hw : jsWhitespaceChar c
    · simp [List.dropWhile_cons, hw, List.filter_cons, ih]
    · simp [List.dropWhile_cons, hw]

theorem filter_reverse_pred (p : Char → Bool) :
    ∀ (l : List Char), l.reverse.filter p = (l.filter p).reverse := by
  intro l
  induction l with
  | nil => rfl
  | cons c cs ih =>
    by_cases hp : p c
    · simp [List.filter_cons, List.filter_append, hp, ih]
    · simp [List.filter_cons, List.filter_append, hp, ih]

theorem jsTrim_subset {a : Char} {l : List Char} (h : a ∈ jsTrim l) : a ∈ l := by
  unfold jsTrim dropTrailingWs at h
  rw [List.mem_reverse] at h
  have h1 := mem_dropWhile_ws h
  rw [List.mem_reverse] at h1
  exact mem_dropWhile_ws h1

theorem jsTrim_filter (l : List Char) :
    (jsTrim l).filter (fun c => !jsWhitespaceChar c)
      = l.filter (fun c => !jsWhitespaceChar c) := by
  unfold jsTrim dropTrailingWs
  rw [filter_reverse_pred, filter_dropWhile_ws, filter_reverse_pred,
    List.reverse_reverse, filter_dropWhile_ws]

theorem cleanLocal_no_nl (t : String) : '\n' ∉ (cleanLocal t).data := by
  intro h
  exact collapseWsAux_no_nl t.data false (jsTrim_subset h)

theorem cleanLocal_filter (t : String) :
    (cleanLocal t).data.filter (fun c => !jsWhitespaceChar c)
      = t.data.filter (fun c => !jsWhitespaceChar c) := by
  show (jsTrim (collapseWsAux false t.data)).filter _ = _
  rw [jsTrim_filter, collapseWsAux_filter]

/-! ### Claim theorems -/

/-- C1, counterexample.  The claim says that for every index `i` the `i`-th
output line corresponds to the `i`-th input line's record.  Concrete refuting
input: line 0 is `{"text":"a"}` (needs embedding), line 1 is a record with no
embeddable text (passed through raw).  The run succeeds, but output line 0 is
the raw text of *input line 1*; input line 0's record appears only at position
1 (batched records are appended at batch-flush time, after later pass-through
lines). -/
theorem c1_counterexample :
    (runFile (stubP (fun _ => [1])) 100
        [Line.json { text := some "a" } "L1", Line.json {} "L2"]).final.status
      = Status.done ∧
    (runFile (stubP (fun _ => [1])) 100
        [Line.json { text := some "a" } "L1", Line.json {} "L2"]).final.resultUrl
      = some [OutLine.raw "L2",
              OutLine.record { text := some "a", embedding := some [1] }] ∧
    OutLine.raw "L2" ≠ OutLine.record { text := some "a", embedding := some [1] } ∧
    OutLine.raw "L2" ≠ OutLine.raw "L1" := by
  refine ⟨by decide, by decide, by decide, by decide⟩

/-- C1, amended.  For every input processed with a provider that succeeds on
every call (the stub), the run reaches `done` and emits exactly `N` output
lines, one per input line — a *permutation* of the per-line expected records
(`expectedOut`): pass-through and parse-error lines keep their position among
immediately-emitted lines while needs-embedding records are appended at their
batch's completion point, so the `i`-th output line need not correspond to the
`i`-th input line. -/
theorem c1_output_count_and_content (f : String → Emb) (T : Nat) (lines : List Line) :
    (runFile (stubP f) T lines).final.status = Status.done ∧
    ∃ out, (runFile (stubP f) T lines).final.resultUrl = some out ∧
      out.length = lines.length ∧
      List.Perm out (lines.map (expectedOut f)) := by
  obtain ⟨h1, h2, out, h3, h4⟩ := runFile_stub f T lines
  exact ⟨h1, out, h3, by rw [h4.length_eq, List.length_map], h4⟩

/-- C2: records that already carry a non-empty `embedding` are passed through
unchanged with zero provider calls, and re-running the pipeline on the
produced output again makes zero calls and yields byte-identical output.  The
input is built by `mkEmbedded`, which ranges over exactly the inputs whose
records all have a non-empty embedding array. -/
theorem c2_already_embedded_idempotent (p : Provider) (T : Nat)
    (rs : List (Record × Int × Emb × String)) :
    (runFile p T (mkEmbedded rs)).calls = [] ∧
    (runFile p T (mkEmbedded rs)).final.status = Status.done ∧
    (runFile p T (mkEmbedded rs)).final.resultUrl = some ((mkEmbedded rs).map passOut) ∧
    (runFile p T (((mkEmbedded rs).map passOut).map outToLine)).calls = [] ∧
    (runFile p T (((mkEmbedded rs).map passOut).map outToLine)).final.resultUrl
      = some ((mkEmbedded rs).map passOut) ∧
    ((runFile p T (((mkEmbedded rs).map passOut).map outToLine)).final.resultUrl).map
        renderOutput
      = ((runFile p T (mkEmbedded rs)).final.resultUrl).map renderOutput := by
  have hmem : ∀ l ∈ mkEmbedded rs, ∃ r raw, l = Line.json r raw ∧ hasEmbedding r = true := by
    intro l hl
    obtain ⟨x, _, hfx⟩ := List.mem_map.mp hl
    subst hfx
    exact ⟨_, _, rfl, by simp [hasEmbedding]⟩
  obtain ⟨a1, a2, a3⟩ := runFile_all_embedded p T hmem
  have hmem2 : ∀ l ∈ ((mkEmbedded rs).map passOut).map outToLine,
      ∃ r raw, l = Line.json r raw ∧ hasEmbedding r = true := by
    intro l hl
    simp only [mkEmbedded, List.map_map] at hl
    obtain ⟨x, _, hfx⟩ := List.mem_map.mp hl
    subst hfx
    exact ⟨_, _, rfl, by simp [hasEmbedding]⟩
  obtain ⟨b1, b2, b3⟩ := runFile_all_embedded p T hmem2
  have hsame : (((mkEmbedded rs).map passOut).map outToLine).map passOut
      = (mkEmbedded rs).map passOut := by
    simp only [mkEmbedded, List.map_map]
    rfl
  refine ⟨a1, a2, a3, b1, ?_, ?_⟩
  · rw [b3, hsame]
  · rw [b3, hsame, a3]

/-- C3, counterexample.  On the spec's own three-line example  — a record with
text `a`, the unparseable line `NOT_JSON`, a record with text `b` — with a stub
provider, the output does have exactly 3 lines and `NOT_JSON` does survive
byte-identically, but it is the *first* output line, not the middle one:
the two embeddable records are only flushed at end of stream, after the raw
line. -/
theorem c3_counterexample :
    (runFile (stubP (fun _ => [1])) 100
        [Line.json { text := some "a" } "A", Line.notJson "NOT_JSON",
         Line.json { text := some "b" } "B"]).final.resultUrl
      = some [OutLine.raw "NOT_JSON",
              OutLine.record { text := some "a", embedding := some [1] },
              OutLine.record { text := some "b", embedding := some [1] }] ∧
    [OutLine.raw "NOT_JSON",
     OutLine.record { text := some "a", embedding := some [1] },
     OutLine.record { text := some "b", embedding := some [1] }].get? 1
      ≠ some (OutLine.raw "NOT_JSON") := by
  refine ⟨by decide, by decide⟩

/-- C3, amended.  An input line that is not valid JSON never aborts the run:
with a provider that answers every call, the run still reaches `done` and the
raw line appears verbatim in the output — at its position among the
immediately-emitted lines rather than at its absolute original index (the
browser pipeline also keeps no error counter).  On the spec's example the
output is `NOT_JSON` first, then the two embedded records. -/
theorem c3_malformed_line_survival :
    (∀ (f : String → Emb) (T : Nat) (lines : List Line) (raw : String),
      Line.notJson raw ∈ lines →
      (runFile (stubP f) T lines).final.status = Status.done ∧
      ∃ out, (runFile (stubP f) T lines).final.resultUrl = some out ∧
        OutLine.raw raw ∈ out) ∧
    (runFile (stubP (fun _ => [1])) 100
        [Line.json { text := some "a" } "A", Line.notJson "NOT_JSON",
         Line.json { text := some "b" } "B"]).final.resultUrl
      = some [OutLine.raw "NOT_JSON",
              OutLine.record { text := some "a", embedding := some [1] },
              OutLine.record { text := some "b", embedding := some [1] }] := by
  constructor
  · intro f T lines raw hmem
    obtain ⟨h1, h2, out, h3, h4⟩ := runFile_stub f T lines
    refine ⟨h1, out, h3, ?_⟩
    exact h4.mem_iff.mpr (List.mem_map_of_mem (expectedOut f) hmem)
  · decide

/-- Witness for the general part of C3: on the concrete example, `NOT_JSON` is
a member of the published output. -/
theorem c3_malformed_line_survival_witness :
    (runFile (stubP (fun _ => [1])) 100
        [Line.json { text := some "a" } "A", Line.notJson "NOT_JSON",
         Line.json { text := some "b" } "B"]).final.status = Status.done ∧
    ∃ out, (runFile (stubP (fun _ => [1])) 100
        [Line.json { text := some "a" } "A", Line.notJson "NOT_JSON",
         Line.json { text := some "b" } "B"]).final.resultUrl = some out ∧
      OutLine.raw "NOT_JSON" ∈ out :=
  c3_malformed_line_survival.1 (fun _ => [1]) 100
    [Line.json { text := some "a" } "A", Line.notJson "NOT_JSON",
     Line.json { text := some "b" } "B"] "NOT_JSON" (by decide)

/-- C4: needs-embedding records are accumulated in arrival order into batches
of at most `BATCH_SIZE = 8`, each full batch is dispatched in a single
provider call as soon as it is full, and one final partial non-empty batch is
dispatched at end of stream.  Formally: the concatenation of the calls is the
arrival-ordered needs-embedding texts, the call sizes follow `sizePattern`
(full batches of 8 followed by the non-empty remainder), and `sizePattern 20 =
[8, 8, 4]`, so 20 embeddable records make exactly 3 calls of sizes 8, 8, 4. -/
theorem c4_batch_integrity (f : String → Emb) (T : Nat) (lines : List Line) :
    (runFile (stubP f) T lines).calls.flatten = embedTexts lines ∧
    (runFile (stubP f) T lines).calls.map List.length
      = sizePattern (embedTexts lines).length ∧
    sizePattern 20 = [8, 8, 4] := by
  have Hp : ∀ ts, ∃ es, stubP f ts = .ok es ∧ es.length = ts.length :=
    fun ts => ⟨ts.map f, rfl, by simp⟩
  obtain ⟨_, _, hcalls⟩ := runFile_ok (stubP f) T lines Hp
  rw [hcalls]
  exact ⟨spin_calls_join (embedTexts lines), spin_calls_sizes (embedTexts lines), by decide⟩

/-- A provider that rejects any call of exactly 8 texts with a non-2xx error
and answers every other call: it fails the first full batch and succeeds on
the retried, grown batch. -/
def flakyProvider : Provider := fun ts =>
  if ts.length == 8 then .error "API Error 500"
  else .ok (ts.map (fun _ => ([1] : Emb)))

/-- Nine records `{"text": i}`, enough for one full batch plus one more. -/
def nineRecords : List Line :=
  (List.range 9).map (fun i => Line.json { text := some (toString i) } (toString i))

/-- C5, failing evaluation.  The claim (and spec §4.6/§8) says a failed batch
dispatch makes the run terminal `Failed` with no output exposed.  In the code,
the per-line `catch` of `processFile` (labelled `Error parsing line`) also
wraps the `await processBatch(...)` call of line 133, so a mid-run dispatch
failure is swallowed: the current raw line is pushed, the batch is not reset,
and the run continues.  Here the dispatch of the first full batch (8 texts)
fails with `API Error 500`, the next line grows the batch to 9 and that call
succeeds — the run ends `done`, exposes 10 output lines for 9 input lines, and
line `7` appears twice (once raw, once embedded). -/
theorem c5_mid_run_failure_swallowed :
    flakyProvider ((List.range 8).map toString) = .error "API Error 500" ∧
    (runFile flakyProvider 1000 nineRecords).calls
      = [(List.range 8).map toString, (List.range 9).map toString] ∧
    (runFile flakyProvider 1000 nineRecords).final.status = Status.done ∧
    (runFile flakyProvider 1000 nineRecords).final.resultUrl
      = some (OutLine.raw "7" ::
          (List.range 9).map
            (fun i => OutLine.record { text := some (toString i), embedding := some [1] })) ∧
    (OutLine.raw "7" ::
      (List.range 9).map
        (fun i => OutLine.record { text := some (toString i), embedding := some [1] })).length
      = 10 ∧
    nineRecords.length = 9 := by
  refine ⟨rfl, by decide, by decide, by decide, by decide, by decide⟩

/-- C6, counterexample.  The claim says a 2xx response whose JSON body does not
contain `data` as an array always fails the batch hard and is never coerced
into embeddings.  In the CLI script's `fetchEmbedding` (part_000 lines
142–144), a 2xx body that is itself a bare JSON array is returned verbatim as
the embedding: a successful, silently-coerced result instead of a failure. -/
theorem c6_counterexample :
    fetchEmbedding ⟨true, 200, JVal.arr [JVal.num 5]⟩ = some (JVal.arr [JVal.num 5]) ∧
    fetchEmbedding ⟨true, 200, JVal.arr [JVal.num 5]⟩ ≠ none := by
  refine ⟨rfl, fun hcon => ?_⟩
  rw [show fetchEmbedding ⟨true, 200, JVal.arr [JVal.num 5]⟩
      = some (JVal.arr [JVal.num 5]) from rfl] at hcon
  exact Option.noConfusion hcon

/-- C6, amended.  In the browser pipeline the claim holds: a 2xx response whose
body does not have `data` as an array makes `fetchBatchEmbeddings` throw, and
an embedding count different from the record count makes `processBatch` throw.
In the CLI script's `fetchEmbedding`, however, a 2xx body that is itself a
JSON array is accepted verbatim as the embedding (and other malformed
responses are turned into `null`, failing only that record). -/
theorem c6_response_shape :
    (∀ resp : Resp, resp.ok = true →
      (∀ items, jsGetField resp.body "data" ≠ .ok (some (JVal.arr items))) →
      ∃ e, fetchBatchEmbeddings resp = .error e) ∧
    (∀ (records : List Record) (resp : Resp) (embs : List (Option JVal)),
      fetchBatchEmbeddings resp = .ok embs → ¬ embs.length = records.length →
      processBatchValidate records resp
        = .error "Embedding service returned an unexpected payload") ∧
    (∀ (s : Nat) (xs : List JVal),
      fetchEmbedding ⟨true, s, JVal.arr xs⟩ = some (JVal.arr xs)) := by
  refine ⟨?_, ?_, ?_⟩
  · intro resp hok hnot
    unfold fetchBatchEmbeddings
    rw [hok, if_neg (by decide)]
    cases hd : jsGetField resp.body "data" with
    | error e => exact ⟨e, rfl⟩
    | ok o =>
      match o with
      | none => exact ⟨_, rfl⟩
      | some JVal.null => exact ⟨_, rfl⟩
      | some (JVal.bool b) => exact ⟨_, rfl⟩
      | some (JVal.num n) => exact ⟨_, rfl⟩
      | some (JVal.str s) => exact ⟨_, rfl⟩
      | some (JVal.arr items) => exact absurd hd (hnot items)
      | some (JVal.obj fs) => exact ⟨_, rfl⟩
  · intro records resp embs hf hne
    unfold processBatchValidate
    rw [hf]
    simp [hne]
  · intro s xs
    rfl

/-- Witness for C6's amended statement, at concrete responses: a 2xx empty
object body fails `fetchBatchEmbeddings`; a 2xx `data` array of one item
against zero records fails `processBatch`'s count check; a 2xx bare-array body
is coerced by the CLI's `fetchEmbedding`. -/
theorem c6_response_shape_witness :
    (∃ e, fetchBatchEmbeddings ⟨true, 200, JVal.obj []⟩ = .error e) ∧
    processBatchValidate [] ⟨true, 200, JVal.obj [("data", JVal.arr [JVal.num 3])]⟩
      = .error "Embedding service returned an unexpected payload" ∧
    fetchEmbedding ⟨true, 200, JVal.arr [JVal.num 7]⟩ = some (JVal.arr [JVal.num 7]) := by
  refine ⟨c6_response_shape.1 ⟨true, 200, JVal.obj []⟩ rfl ?_,
    c6_response_shape.2.1 [] ⟨true, 200, JVal.obj [("data", JVal.arr [JVal.num 3])]⟩
      [none] rfl (by decide),
    c6_response_shape.2.2 200 [JVal.num 7]⟩
  intro items hcon
  simp [jsGetField] at hcon

/-- C7: text extraction follows the fixed priority order — `dense_context`
verbatim when it carries a non-empty value; otherwise `"Q: {question}\nA:
{answer}"` when both `question` and `answer` carry non-empty values; otherwise
`text` verbatim (empty when absent).  Absence of all three yields the empty
string; extraction is a total function of the record and never mutates it
(it is modelled as a pure function).  Following the spec's own convention, a
field holding the empty string counts as "no embeddable text", i.e. absent. -/
theorem c7_text_extraction :
    (∀ (r : Record) (s : String), r.dense_context = some s → ¬ s = "" →
      getEmbeddingText r = s) ∧
    (∀ r : Record, truthy r.dense_context = false → truthy r.question = true →
      truthy r.answer = true →
      getEmbeddingText r = "Q: " ++ r.question.getD "" ++ "\nA: " ++ r.answer.getD "") ∧
    (∀ r : Record, truthy r.dense_context = false →
      (truthy r.question && truthy r.answer) = false →
      getEmbeddingText r = r.text.getD "") ∧
    (∀ r : Record, r.dense_context = none → r.question = none → r.answer = none →
      r.text = none → getEmbeddingText r = "") := by
  refine ⟨?_, ?_, ?_, ?_⟩
  · intro r s hd hs
    have ht : truthy r.dense_context = true := by simp [truthy, hd, hs]
    unfold getEmbeddingText
    rw [if_pos ht, hd]
    rfl
  · intro r hd hq ha
    simp [getEmbeddingText, hd, hq, ha]
  · intro r hd hqa
    simp [getEmbeddingText, hd, hqa]
  · intro r h1 h2 h3 h4
    simp [getEmbeddingText, truthy, h1, h2, h3, h4]

/-- Witness for C7 at concrete records, one per priority branch. -/
theorem c7_text_extraction_witness :
    getEmbeddingText { dense_context := some "d", text := some "t" } = "d" ∧
    getEmbeddingText { question := some "q", answer := some "a", text := some "t" }
      = "Q: q\nA: a" ∧
    getEmbeddingText { dense_context := some "", question := some "q", text := some "t" }
      = "t" ∧
    getEmbeddingText {} = "" :=
  ⟨c7_text_extraction.1 { dense_context := some "d", text := some "t" } "d" rfl (by decide),
   c7_text_extraction.2.1 { question := some "q", answer := some "a", text := some "t" }
     (by decide) (by decide) (by decide),
   c7_text_extraction.2.2.1 { dense_context := some "", question := some "q", text := some "t" }
     (by decide) (by decide),
   c7_text_extraction.2.2.2 {} rfl rfl rfl rfl⟩

/-- C8: while a run is processing, every published UI state has progress at
most 99 (the `min(99, …)` recomputation), every resolved in-loop batch
increments the processed count by exactly the batch size and sets progress to
`min(99, round(100 * consumedBytes / totalBytes))`, a final status of `done`
always comes with progress exactly 100, and with a provider that answers every
call the run does reach `done` with progress 100. -/
theorem c8_progress_invariant :
    (∀ (p : Provider) (T : Nat) (lines : List Line) (s : FileState),
      s ∈ (runFile p T lines).trace → s.status = Status.processing → s.progress ≤ 99) ∧
    (∀ (p : Provider) (T : Nat) (lines : List Line) (e : Evt),
      e ∈ (runFile p T lines).events →
      e.post = e.pre + e.size ∧ e.progress = progressOf e.bytes T) ∧
    (∀ (p : Provider) (T : Nat) (lines : List Line),
      (runFile p T lines).final.status = Status.done →
      (runFile p T lines).final.progress = 100) ∧
    (∀ (f : String → Emb) (T : Nat) (lines : List Line),
      (runFile (stubP f) T lines).final.status = Status.done ∧
      (runFile (stubP f) T lines).final.progress = 100) := by
  refine ⟨?_, ?_, ?_, ?_⟩
  · intro p T lines s hs
    exact (runFile_inv p T lines).1 s hs
  · intro p T lines e he
    exact (runFile_inv p T lines).2.1 e he
  · intro p T lines
    exact (runFile_inv p T lines).2.2
  · intro f T lines
    obtain ⟨h1, h2, _⟩ := runFile_stub f T lines
    exact ⟨h1, h2⟩

/-- Witness for C8 at concrete runs: the initial processing state of an
empty-file run has progress at most 99; the one batch event of an 8-record run
satisfies the accounting equation; the done state of an empty-file run has
progress 100. -/
theorem c8_progress_invariant_witness :
    (({ status := Status.processing, progress := 0, processed := 0, total := 0,
        resultUrl := none, error := none } : FileState).progress ≤ 99) ∧
    ((8 : Nat) = 0 + 8 ∧ (16 : Nat) = progressOf 16 100) ∧
    (runFile (stubP (fun _ => [1])) 100 ([] : List Line)).final.progress = 100 :=
  ⟨c8_progress_invariant.1 (stubP (fun _ => [1])) 100 []
      { status := Status.processing, progress := 0, processed := 0, total := 0,
        resultUrl := none, error := none } (by decide) (by decide),
   c8_progress_invariant.2.1 (stubP (fun _ => [1])) 100
      ((List.range 8).map (fun i => Line.json { text := some (toString i) } (toString i)))
      ⟨0, 8, 8, 16, 16⟩ (by decide),
   c8_progress_invariant.2.2.1 (stubP (fun _ => [1])) 100 [] (by decide)⟩

/-- C9, counterexample.  The claim says every text submitted to a provider —
remote or local — has each internal newline replaced by a single space and no
other character altered.  The local path instead collapses every whitespace
run and trims: on `"a\n\nb"` it submits `"a b"`, not the claimed `"a  b"`. -/
theorem c9_counterexample :
    cleanLocal "a\n\nb" = "a b" ∧
    cleanRemote "a\n\nb" = "a  b" ∧
    ("a b" : String) ≠ "a  b" := by
  refine ⟨by decide, by decide, by decide⟩

/-- C9, amended.  Texts submitted to the remote provider (the `input` of the
request body) have each newline replaced by a single space with every other
character untouched, position by position.  Texts submitted to the local
provider are instead whitespace-normalized: the submitted text contains no
newline at all, and the sequence of non-whitespace characters is preserved
(whitespace runs become single spaces and the ends are trimmed). -/
theorem c9_newline_cleaning :
    (∀ (m : String) (ts : List String), (buildRequest m ts).input = ts.map cleanRemote) ∧
    (∀ (t : String) (i : Nat), (cleanRemote t).data[i]? = (t.data[i]?).map substNl) ∧
    (∀ c : Char, ¬ c = '\n' → substNl c = c) ∧
    substNl '\n' = ' ' ∧
    (∀ t : String, '\n' ∉ (cleanLocal t).data) ∧
    (∀ t : String, (cleanLocal t).data.filter (fun c => !jsWhitespaceChar c)
      = t.data.filter (fun c => !jsWhitespaceChar c)) ∧
    (∀ (ex : String → Emb) (t : String) (ts : List String),
      (embedTextsLocally ex (.arr (t :: ts))).1
        = (t :: ts).map (fun u => ex (cleanLocal u))) := by
  refine ⟨fun m ts => rfl, ?_, ?_, rfl, cleanLocal_no_nl, cleanLocal_filter, ?_⟩
  · intro t i
    show (t.data.map substNl)[i]? = (t.data[i]?).map substNl
    simp
  · intro c hc
    simp [substNl, hc]
  · intro ex t ts
    rfl

/-- Witness for C9's hypothesis-bearing conjunct: a non-newline character is
left unchanged by the remote substitution. -/
theorem c9_newline_cleaning_witness : substNl 'a' = 'a' :=
  c9_newline_cleaning.2.2.1 'a' (by decide)

/-- C10: calling `embedTextsLocally` with an argument that is not an array, or
with an empty array, returns the empty list immediately — without consulting
the pipeline loader and without invoking the extractor (both effect counters
are zero). -/
theorem c10_local_guard (ex : String → Emb) :
    embedTextsLocally ex JsArg.notArray = ([], ⟨0, 0⟩) ∧
    embedTextsLocally ex (JsArg.arr []) = ([], ⟨0, 0⟩) :=
  ⟨rfl, rfl⟩

end KB
